import Mathlib

/-!
Verification development for the enterprise-pos-auth-service repository:
a shallow embedding of the soft-delete / metadata policy
(src/utils/softDelete.js), the document-store gateway routes
(src/routes/dbRoutes.js), the audit middleware (src/middleware/audit.js)
and the actions query route (src/routes/actionsRoutes.js), together with
theorems settling the specification claims about them.

Conventions of the embedding:
- A JSON-ish value is `JVal`; timestamps (JS `Date`) are `JVal.int`
  millisecond counts, Mongo ObjectIds are `JVal.oid`.
- A JS object is an association list `List (String × α)`; JS object
  spread, which lets a later key overwrite an earlier one, is `jsInsert`
  (erase the key, then append the new binding), and `jsMerge a b`
  models the literal `\x7b...a, ...b\x7d`.
- Stateful route handlers become pure functions that take the store
  (a list of documents) and return a `Response` with the new store.
- Time is an explicit `Int` parameter standing for `Date.now()` or
  `new Date()` at the moment the code reads the clock.
-/

namespace ProjectV

/-- A JSON-like value stored in a document field. -/
inductive JVal where
  | str (s : String)
  | int (n : Int)
  | bool (b : Bool)
  | null
  | oid (n : Nat)
  deriving DecidableEq, Repr

/-- A document (and likewise a JS object of values): field name to value. -/
abbrev Doc := List (String × JVal)

/-- Lookup of a field of a JS object (objects have unique keys, so the first
binding is the binding). -/
def lookupD (o : List (String × α)) (k : String) : Option α :=
  match o with
  | [] => none
  | p :: rest => if p.1 = k then some p.2 else lookupD rest k

/-- Remove every binding of key `k` from an object. -/
def eraseKey (k : String) (o : List (String × α)) : List (String × α) :=
  o.filter (fun p => p.1 ≠ k)

/-- Model of writing the key `k` in a JS object literal or spread after the
rest of the object: the new binding wins over any earlier binding of `k`. -/
def jsInsert (k : String) (v : α) (o : List (String × α)) : List (String × α) :=
  eraseKey k o ++ [(k, v)]

/-- Model of the JS spread merge of two objects, later fields winning on any
key collision. -/
def jsMerge (a b : List (String × α)) : List (String × α) :=
  b.foldl (fun acc p => jsInsert p.1 p.2 acc) a

/-- A single MongoDB field constraint as used by this codebase: equality to a
value, or the operator asking that the field be absent or present. -/
inductive Cond where
  | eq (v : JVal)
  | notExists
  | doesExist
  deriving DecidableEq, Repr

/-- A MongoDB query predicate: a JS object mapping field names to constraints
(the conjunction of its clauses). -/
abbrev Filter := List (String × Cond)

/-- Satisfaction of one constraint by the value a document holds at the field
(`none` when the field is absent). MongoDB equality to `null` also matches an
absent field. -/
def condHolds (c : Cond) (v : Option JVal) : Bool :=
  match c, v with
  | .eq .null, none => true
  | .eq w, some v2 => w == v2
  | .eq _, none => false
  | .notExists, v2 => v2.isNone
  | .doesExist, v2 => v2.isSome

/-- A document matches a filter when every clause of the filter holds for it. -/
def matchesD (d : Doc) (f : Filter) : Bool :=
  f.all (fun p => condHolds p.2 (lookupD d p.1))

/-- The authenticated user attached by the auth middleware, as consumed by the
metadata policy and the audit recorder: `req.user` with optional `username`
and `email` fields (absent fields are `none`). -/
structure User where
  username : Option String
  email : Option String
  deriving DecidableEq, Repr

/-- Model of the JS expression `user?.username || fallback`: the fallback is
used when the user is absent, the field is absent, or the string is empty
(falsy). -/
def strOr (s : Option String) (fallback : String) : String :=
  match s with
  | some v => if v = "" then fallback else v
  | none => fallback

/-- Embeds softDelete.js addSoftDeleteFilter: returns the spread of the input
filter with a final `deleted_at: $exists false` clause, the added clause
overwriting any caller clause on `deleted_at`. -/
def addSoftDeleteFilter (filter : Filter) : Filter :=
  jsInsert "deleted_at" Cond.notExists filter

/-- Embeds softDelete.js getCreateMetadata: `created_at` is the current time,
`created_by` the username or the sentinel system. -/
def getCreateMetadata (now : Int) (user : Option User) : Doc :=
  [("created_at", JVal.int now),
   ("created_by", JVal.str (strOr (user.bind User.username) "system"))]

/-- Embeds softDelete.js getUpdateMetadata. -/
def getUpdateMetadata (now : Int) (user : Option User) : Doc :=
  [("updated_at", JVal.int now),
   ("updated_by", JVal.str (strOr (user.bind User.username) "system"))]

/-- Embeds softDelete.js getDeleteMetadata. -/
def getDeleteMetadata (now : Int) (user : Option User) : Doc :=
  [("deleted_at", JVal.int now),
   ("deleted_by", JVal.str (strOr (user.bind User.username) "system"))]

/-! ## Document store operations (MongoDB driver calls, as used by the routes) -/

/-- Applying a `$set` update document to a stored document: each field of the
set document is written into the document, overwriting any prior value. -/
def applySet (set : Doc) (d : Doc) : Doc :=
  jsMerge d set

/-- Embeds `collection.findOne(filter)`: the first stored document matching
the filter, if any. -/
def findOneDoc (f : Filter) : List Doc → Option Doc
  | [] => none
  | d :: rest => if matchesD d f then some d else findOneDoc f rest

/-- Embeds `collection.findOneAndUpdate(filter, set, returnDocument after)`:
updates the first matching document and returns the post-update document
(the `result.value` field), together with the new store. -/
def findOneAndUpdate (f : Filter) (set : Doc) : List Doc → Option Doc × List Doc
  | [] => (none, [])
  | d :: rest =>
      if matchesD d f then (some (applySet set d), applySet set d :: rest)
      else
        match findOneAndUpdate f set rest with
        | (r, rest2) => (r, d :: rest2)

/-- Embeds `collection.updateOne(filter, set)`: updates the first matching
document; the returned count is `modifiedCount`, which is 1 only when the
matched document actually changed. -/
def updateOne (f : Filter) (set : Doc) : List Doc → Nat × List Doc
  | [] => (0, [])
  | d :: rest =>
      if matchesD d f then
        (if applySet set d ≠ d then 1 else 0, applySet set d :: rest)
      else
        match updateOne f set rest with
        | (n, rest2) => (n, d :: rest2)

/-- Embeds `collection.updateMany(filter, set)`: updates every matching
document; the returned count is `modifiedCount`. -/
def updateMany (f : Filter) (set : Doc) : List Doc → Nat × List Doc
  | [] => (0, [])
  | d :: rest =>
      match updateMany f set rest with
      | (n, rest2) =>
          if matchesD d f then
            ((if applySet set d ≠ d then 1 else 0) + n, applySet set d :: rest2)
          else (n, d :: rest2)

/-- Embeds `collection.insertOne(doc)`: when the document has no `_id`, the
driver generates one (modelled by the `newId` parameter); returns the
`insertedId` and the new store. -/
def insertOne (newId : Nat) (d : Doc) (store : List Doc) : JVal × List Doc :=
  match lookupD d "_id" with
  | some v => (v, store ++ [d])
  | none => (JVal.oid newId, store ++ [jsInsert "_id" (JVal.oid newId) d])

/-! ## HTTP responses and pagination coercions -/

/-- The JSON body shapes the routes send; distinct JSON shapes are distinct
constructors, so equality of `RBody` is equality of the client-visible JSON. -/
inductive RBody where
  | err (msg : String)
  | okDoc (d : Doc)
  | okDeleted (n : Nat)
  | okInserted (id2 : JVal)
  | okFound (count : Nat) (docs : List Doc)
  deriving DecidableEq, Repr

/-- A client-visible response: the HTTP status code and the JSON body. -/
structure Response where
  status : Nat
  body : RBody
  deriving DecidableEq, Repr

/-- The 404 response `error: Document not found` shared by the by-id routes. -/
def notFoundResp : Response :=
  { status := 404, body := RBody.err "Document not found" }

/-- The 200 response of the soft-delete routes carrying the modified count. -/
def okDeletedResp (n : Nat) : Response :=
  { status := 200, body := RBody.okDeleted n }

/-- The 200 response carrying a single document. -/
def okDocResp (d : Doc) : Response :=
  { status := 200, body := RBody.okDoc d }

/-- A caller-supplied `limit` or `skip` body field as the route sees it:
absent (destructuring default applies), a numeric value, or a value whose
JS `Number(...)` coercion is NaN. -/
inductive JsInput where
  | missing
  | num (n : Int)
  | nonNumeric
  deriving DecidableEq, Repr

/-- Model of JS `Number(x)` on a route input; `none` stands for NaN (also the
result for a missing value, `Number(undefined)`). -/
def toNumber : JsInput → Option Int
  | .num n => some n
  | .nonNumeric => none
  | .missing => none

/-- Model of the JS expression `x || d` on the result of `Number(...)`: NaN
and 0 are falsy, so both fall back to the default. -/
def numOr (x : Option Int) (d : Int) : Int :=
  match x with
  | some n => if n = 0 then d else n
  | none => d

/-- A destructuring default `field = d` applies only when the field is absent
from the body. -/
def destructure (i : JsInput) (d : Int) : JsInput :=
  match i with
  | .missing => .num d
  | x => x

/-- Embeds the limit coercion of POST /collections/:name/find:
`Math.min(Number(limit) || 50, 500)` with destructuring default 50. -/
def effLimitFind (limit : JsInput) : Int :=
  min (numOr (toNumber (destructure limit 50)) 50) 500

/-- Embeds the skip coercion of POST /collections/:name/find:
`Number(skip) || 0` with destructuring default 0. -/
def effSkipFind (skip : JsInput) : Int :=
  numOr (toNumber (destructure skip 0)) 0

/-- Embeds the limit coercion of POST /actions/find:
`Math.min(Number(limit) || 100, 1000)` with destructuring default 100. -/
def effLimitActions (limit : JsInput) : Int :=
  min (numOr (toNumber (destructure limit 100)) 100) 1000

/-- Cursor `limit(n)` semantics of the MongoDB driver: 0 means no limit, a
positive n returns at most n documents, and a negative n behaves like its
absolute value (single batch). -/
def applyLimit (l : Int) (docs : List Doc) : List Doc :=
  if l = 0 then docs else docs.take l.natAbs

/-- Cursor `skip(s)` semantics for the non-negative values the routes
produce. -/
def applySkip (s : Int) (docs : List Doc) : List Doc :=
  docs.drop s.toNat

/-! ## Gateway route handlers (dbRoutes.js), past input validation

Each handler is modelled at the point where the collection name is
non-empty, the id already parsed to a valid ObjectId (`id : Nat`), and the
body type-checked as an object; the earlier 400 branches are input
validation outside these claims. The store is the target collection. -/

/-- Embeds POST /collections/:name/documents: spreads creation metadata over
the caller body (metadata last, winning on collision) and inserts. -/
def postDocument (store : List Doc) (body : Doc) (user : Option User)
    (now : Int) (newId : Nat) : Response × List Doc :=
  let docWithMetadata := jsMerge body (getCreateMetadata now user)
  match insertOne newId docWithMetadata store with
  | (insertedId, store2) => ({ status := 201, body := .okInserted insertedId }, store2)

/-- Embeds PATCH /collections/:name/documents/:id: spreads update metadata
over the caller updates, then findOneAndUpdate restricted by
addSoftDeleteFilter on the id; a missing result value is a 404. -/
def patchDocument (store : List Doc) (id2 : Nat) (updates : Doc)
    (user : Option User) (now : Int) : Response × List Doc :=
  let updatesWithMetadata := jsMerge updates (getUpdateMetadata now user)
  match findOneAndUpdate (addSoftDeleteFilter [("_id", Cond.eq (JVal.oid id2))])
      updatesWithMetadata store with
  | (none, store2) => ({ status := 404, body := .err "Document not found" }, store2)
  | (some doc, store2) => ({ status := 200, body := .okDoc doc }, store2)

/-- Embeds POST /collections/:name/find: adds the soft-delete clause to the
caller filter, then applies sort (left abstract: the claims are about
membership and counts), skip and the capped limit. -/
def findDocuments (store : List Doc) (filter : Filter)
    (limit skip : JsInput) : Response :=
  let softDeleteFilter := addSoftDeleteFilter filter
  let docs := applyLimit (effLimitFind limit)
      (applySkip (effSkipFind skip) (store.filter (fun d => matchesD d softDeleteFilter)))
  { status := 200, body := .okFound docs.length docs }

/-- Embeds DELETE /collections/:name/documents (and its POST alternative,
which has the same body): updateMany over the soft-delete-filtered caller
filter, setting deletion metadata; always a 200 with the modified count. -/
def deleteDocumentsByFilter (store : List Doc) (filter : Filter)
    (user : Option User) (now : Int) : Response × List Doc :=
  match updateMany (addSoftDeleteFilter filter) (getDeleteMetadata now user) store with
  | (n, store2) => ({ status := 200, body := .okDeleted n }, store2)

/-- Embeds GET /collections/:name/documents/:id: findOne restricted by
addSoftDeleteFilter on the id; a missing document is a 404. -/
def getDocument (store : List Doc) (id2 : Nat) : Response :=
  match findOneDoc (addSoftDeleteFilter [("_id", Cond.eq (JVal.oid id2))]) store with
  | none => { status := 404, body := .err "Document not found" }
  | some doc => { status := 200, body := .okDoc doc }

/-- Embeds DELETE /collections/:name/documents/:id: updateOne restricted by
addSoftDeleteFilter on the id, setting deletion metadata; a zero
modifiedCount is a 404. -/
def deleteDocumentById (store : List Doc) (id2 : Nat) (user : Option User)
    (now : Int) : Response × List Doc :=
  match updateOne (addSoftDeleteFilter [("_id", Cond.eq (JVal.oid id2))])
      (getDeleteMetadata now user) store with
  | (n, store2) =>
      if n = 0 then ({ status := 404, body := .err "Document not found" }, store2)
      else ({ status := 200, body := .okDeleted n }, store2)

/-- Embeds POST /actions/find (actionsRoutes.js): queries the actions
collection with the raw caller filter (no soft-delete clause), default sort
by timestamp, skip, and the capped limit. -/
def findActions (store : List Doc) (filter : Filter)
    (limit skip : JsInput) : Response :=
  let docs := applyLimit (effLimitActions limit)
      (applySkip (effSkipFind skip) (store.filter (fun d => matchesD d filter)))
  { status := 200, body := .okFound docs.length docs }

/-! ## Audit middleware (audit.js)

The middleware wraps `res.send` to capture the outgoing payload, forwards
the same payload to the original send, and registers a single handler on
the response finish event. When the response has been flushed, the handler
builds the action record and inserts it into the actions collection inside
a try/catch whose catch only writes to the local console. The embedding
makes the event order explicit as a trace and the insert outcome a boolean
parameter (`auditWriteOk`), since the store is external. -/

/-- The request facts the audit middleware reads. -/
structure Request where
  user : Option User
  method : String
  path : String
  reqIp : Option String
  userAgent : Option String
  deriving DecidableEq, Repr

/-- Model of the JS expression `user?.email || null` on the audit record:
a missing user, a missing field, and an empty (falsy) string all give null. -/
def emailOrNull (s : Option String) : Option String :=
  match s with
  | some v => if v = "" then none else some v
  | none => none

/-- The action record the audit middleware assembles (the query/params/body
echoes are carried by the request model and omitted as redundant fields). -/
structure AuditRecord where
  username : String
  email : Option String
  method : String
  path : String
  statusCode : Nat
  duration : Int
  timestamp : Int
  reqIp : Option String
  userAgent : Option String
  deriving DecidableEq, Repr

/-- Embeds the record literal built inside the finish handler of auditLog:
`start` is the `Date.now()` read when the middleware ran, `finish` the
`Date.now()` read inside the finish handler. -/
def buildAuditRecord (req : Request) (statusCode : Nat)
    (start finish : Int) : AuditRecord :=
  { username := strOr (req.user.bind User.username) "anonymous"
    email := emailOrNull (req.user.bind User.email)
    method := req.method
    path := req.path
    statusCode := statusCode
    duration := finish - start
    timestamp := finish
    reqIp := req.reqIp
    userAgent := req.userAgent }

/-- An observable event of one request: the response reaching the client, or
a record landing in the actions collection. -/
inductive AuditEv where
  | responseSent (r : Response)
  | auditInsert (rec : AuditRecord)
  deriving DecidableEq, Repr

/-- Everything observable about one request processed under the audit
middleware: the client-visible response, the actions collection afterwards,
the local error log, and the ordered event trace. -/
structure AuditOutcome where
  response : Response
  actions : List AuditRecord
  errorLog : List String
  events : List AuditEv
  deriving DecidableEq, Repr

/-- Embeds auditLog (audit.js) applied to one request whose route handler
produces `handlerResponse`: the wrapped send forwards the handler payload
unchanged, the finish event fires once after the response is flushed, and
the insert inside the finish handler either succeeds (appending exactly the
built record) or throws (caught; the catch only logs locally). -/
def auditLog (req : Request) (handlerResponse : Response) (start finish : Int)
    (auditWriteOk : Bool) (actions : List AuditRecord) : AuditOutcome :=
  let rec2 := buildAuditRecord req handlerResponse.status start finish
  { response := handlerResponse
    actions := if auditWriteOk then actions ++ [rec2] else actions
    errorLog := if auditWriteOk then [] else ["Audit log error"]
    events := .responseSent handlerResponse ::
      (if auditWriteOk then [.auditInsert rec2] else []) }

/-! ## Helper lemmas about JS objects and filter matching -/

theorem lookupD_append_of_some {a : List (String × α)} {k : String} {v : α}
    (b : List (String × α)) (h : lookupD a k = some v) :
    lookupD (a ++ b) k = some v := by
  induction a with
  | nil => simp [lookupD] at h
  | cons p rest ih =>
      rw [List.cons_append]
      simp only [lookupD] at h ⊢
      by_cases hk : p.1 = k
      · simpa [hk] using h
      · simp only [hk, if_false] at h ⊢
        exact ih h

theorem lookupD_append_of_none {a : List (String × α)} {k : String}
    (b : List (String × α)) (h : lookupD a k = none) :
    lookupD (a ++ b) k = lookupD b k := by
  induction a with
  | nil => rfl
  | cons p rest ih =>
      rw [List.cons_append]
      simp only [lookupD] at h ⊢
      by_cases hk : p.1 = k
      · simp [hk] at h
      · simp only [hk, if_false] at h ⊢
        exact ih h

theorem lookupD_eraseKey_self (o : List (String × α)) (k : String) :
    lookupD (eraseKey k o) k = none := by
  induction o with
  | nil => rfl
  | cons p rest ih =>
      by_cases hk : p.1 = k
      · simpa [eraseKey, List.filter_cons, hk] using ih
      · simpa [eraseKey, List.filter_cons, hk, lookupD] using ih

theorem lookupD_eraseKey_ne (o : List (String × α)) {k k2 : String}
    (h : k2 ≠ k) : lookupD (eraseKey k o) k2 = lookupD o k2 := by
  induction o with
  | nil => rfl
  | cons p rest ih =>
      by_cases hk : p.1 = k
      · have hp : ¬ p.1 = k2 := by
          rw [hk]
          exact Ne.symm h
        rw [show eraseKey k (p :: rest) = eraseKey k rest from by
          simp [eraseKey, List.filter_cons, hk]]
        rw [ih]
        simp [lookupD, hp]
      · rw [show eraseKey k (p :: rest) = p :: eraseKey k rest from by
          simp [eraseKey, List.filter_cons, hk]]
        by_cases hp : p.1 = k2
        · simp [lookupD, hp]
        · simpa [lookupD, hp] using ih

theorem lookupD_jsInsert_self (o : List (String × α)) (k : String) (v : α) :
    lookupD (jsInsert k v o) k = some v := by
  unfold jsInsert
  rw [lookupD_append_of_none _ (lookupD_eraseKey_self o k)]
  simp [lookupD]

theorem lookupD_jsInsert_ne (o : List (String × α)) {k k2 : String} (v : α)
    (h : k2 ≠ k) : lookupD (jsInsert k v o) k2 = lookupD o k2 := by
  unfold jsInsert
  rcases h2 : lookupD (eraseKey k o) k2 with _ | w
  · rw [lookupD_append_of_none _ h2, ← lookupD_eraseKey_ne o h, h2]
    simp [lookupD, Ne.symm h]
  · rw [lookupD_append_of_some _ h2, ← lookupD_eraseKey_ne o h, h2]

theorem mem_of_mem_eraseKey {o : List (String × α)} {k : String}
    {q : String × α} (h : q ∈ eraseKey k o) : q ∈ o :=
  List.mem_of_mem_filter h

theorem mem_jsInsert {o : List (String × α)} {k : String} {v : α}
    {q : String × α} (h : q ∈ jsInsert k v o) : q = (k, v) ∨ q ∈ o := by
  unfold jsInsert at h
  rcases List.mem_append.mp h with h2 | h2
  · exact Or.inr (mem_of_mem_eraseKey h2)
  · simp at h2
    exact Or.inl h2

theorem mem_jsMerge {a b : List (String × α)} {q : String × α}
    (h : q ∈ jsMerge a b) : q ∈ a ∨ q ∈ b := by
  induction b generalizing a with
  | nil => exact Or.inl h
  | cons p rest ih =>
      have h2 : q ∈ jsMerge (jsInsert p.1 p.2 a) rest := h
      rcases ih h2 with h3 | h3
      · rcases mem_jsInsert h3 with h4 | h4
        · exact Or.inr (by simp [h4])
        · exact Or.inl h4
      · exact Or.inr (List.mem_cons_of_mem _ h3)

theorem applySet_cons (p : String × JVal) (rest : List (String × JVal))
    (d : Doc) : applySet (p :: rest) d = applySet rest (jsInsert p.1 p.2 d) := rfl

theorem lookupD_applySet_not_key {set : List (String × JVal)} {k : String}
    (h : ∀ p ∈ set, p.1 ≠ k) (d : Doc) :
    lookupD (applySet set d) k = lookupD d k := by
  induction set generalizing d with
  | nil => rfl
  | cons p rest ih =>
      rw [applySet_cons]
      rw [ih (fun q hq => h q (List.mem_cons_of_mem _ hq))]
      exact lookupD_jsInsert_ne d p.2 (fun hc => h p (List.mem_cons_self _ _) hc.symm)

theorem applySet_append (s1 s2 : List (String × JVal)) (d : Doc) :
    applySet (s1 ++ s2) d = applySet s2 (applySet s1 d) := by
  simp [applySet, jsMerge, List.foldl_append]

theorem applySet_single (k : String) (v : JVal) (d : Doc) :
    applySet [(k, v)] d = jsInsert k v d := rfl

theorem eraseKey_append (k : String) (a b : List (String × α)) :
    eraseKey k (a ++ b) = eraseKey k a ++ eraseKey k b := by
  simp [eraseKey, List.filter_append]

theorem eraseKey_single_ne {k k2 : String} (v : α) (h : k2 ≠ k) :
    eraseKey k [(k2, v)] = [(k2, v)] := by
  simp [eraseKey, List.filter, h]

/-- Spreading a two-field metadata object over a document decomposes into two
jsInsert steps over the caller fields with the metadata keys removed. -/
theorem applySet_jsMerge_two (a : List (String × JVal)) {k1 k2 : String}
    (v1 v2 : JVal) (d : Doc) (hne : k1 ≠ k2) :
    applySet (jsMerge a [(k1, v1), (k2, v2)]) d =
      jsInsert k2 v2 (jsInsert k1 v1 (applySet (eraseKey k2 (eraseKey k1 a)) d)) := by
  have h1 : jsMerge a [(k1, v1), (k2, v2)] = jsInsert k2 v2 (jsInsert k1 v1 a) := rfl
  rw [h1]
  show applySet (eraseKey k2 (jsInsert k1 v1 a) ++ [(k2, v2)]) d = _
  rw [applySet_append, applySet_single]
  show jsInsert k2 v2 (applySet (eraseKey k2 (eraseKey k1 a ++ [(k1, v1)])) d) = _
  rw [eraseKey_append, eraseKey_single_ne v1 hne, applySet_append, applySet_single]

theorem condHolds_notExists (v : Option JVal) :
    condHolds Cond.notExists v = v.isNone := by
  cases v <;> rfl

theorem condHolds_eq_oid (i : Nat) (v : Option JVal) :
    condHolds (Cond.eq (JVal.oid i)) v = true ↔ v = some (JVal.oid i) := by
  cases v with
  | none => simp [show condHolds (Cond.eq (JVal.oid i)) none = false from rfl]
  | some w =>
      rw [show condHolds (Cond.eq (JVal.oid i)) (some w) = (JVal.oid i == w) from rfl,
        beq_iff_eq]
      constructor
      · intro h2
        rw [h2]
      · intro h2
        injection h2 with h3
        rw [h3]

theorem matchesD_append (d : Doc) (a b : Filter) :
    matchesD d (a ++ b) = (matchesD d a && matchesD d b) := by
  simp [matchesD, List.all_append]

/-- Central matching lemma: the filter built by addSoftDeleteFilter matches a
document exactly when the caller filter minus any `deleted_at` clause matches
it and the document has no `deleted_at` field. -/
theorem matchesD_addSoftDeleteFilter (d : Doc) (P : Filter) :
    matchesD d (addSoftDeleteFilter P) =
      (matchesD d (eraseKey "deleted_at" P) && (lookupD d "deleted_at").isNone) := by
  show matchesD d (eraseKey "deleted_at" P ++ [("deleted_at", Cond.notExists)]) = _
  rw [matchesD_append]
  simp [matchesD, condHolds_notExists]

theorem eraseKey_of_not_key {P : List (String × α)} {k : String}
    (h : ∀ p ∈ P, p.1 ≠ k) : eraseKey k P = P := by
  induction P with
  | nil => rfl
  | cons p rest ih =>
      have h1 : p.1 ≠ k := h p (List.mem_cons_self _ _)
      have h2 := ih (fun q hq => h q (List.mem_cons_of_mem _ hq))
      simp only [eraseKey, List.filter_cons] at h2 ⊢
      rw [if_pos (by simp [h1]), h2]

/-! ## Helper lemmas about the store operations -/

theorem findOneAndUpdate_cons (f : Filter) (set d : Doc) (rest : List Doc) :
    findOneAndUpdate f set (d :: rest) =
      if matchesD d f then (some (applySet set d), applySet set d :: rest)
      else ((findOneAndUpdate f set rest).1, d :: (findOneAndUpdate f set rest).2) := by
  rcases h5 : findOneAndUpdate f set rest with ⟨r2, rest2⟩
  show (if matchesD d f = true then (some (applySet set d), applySet set d :: rest)
    else match findOneAndUpdate f set rest with
      | (r, rest2) => (r, d :: rest2)) = _
  rw [h5]

theorem updateOne_cons (f : Filter) (set : Doc) (d : Doc) (rest : List Doc) :
    updateOne f set (d :: rest) =
      if matchesD d f then
        (if applySet set d ≠ d then 1 else 0, applySet set d :: rest)
      else ((updateOne f set rest).1, d :: (updateOne f set rest).2) := by
  rcases h5 : updateOne f set rest with ⟨n, rest2⟩
  show (if matchesD d f = true then
      (if applySet set d ≠ d then 1 else 0, applySet set d :: rest)
    else match updateOne f set rest with
      | (n, rest2) => (n, d :: rest2)) = _
  rw [h5]

theorem updateMany_cons (f : Filter) (set : Doc) (d : Doc) (rest : List Doc) :
    updateMany f set (d :: rest) =
      if matchesD d f then
        ((if applySet set d ≠ d then 1 else 0) + (updateMany f set rest).1,
          applySet set d :: (updateMany f set rest).2)
      else ((updateMany f set rest).1, d :: (updateMany f set rest).2) := by
  rcases h5 : updateMany f set rest with ⟨n, rest2⟩
  show (match updateMany f set rest with
    | (n, rest2) =>
        if matchesD d f = true then
          ((if applySet set d ≠ d then 1 else 0) + n, applySet set d :: rest2)
        else (n, d :: rest2)) = _
  rw [h5]

theorem findOneDoc_none {f : Filter} {store : List Doc}
    (h : ∀ d ∈ store, matchesD d f = false) : findOneDoc f store = none := by
  induction store with
  | nil => rfl
  | cons d rest ih =>
      unfold findOneDoc
      rw [if_neg (by simp [h d (List.mem_cons_self _ _)])]
      exact ih (fun x hx => h x (List.mem_cons_of_mem _ hx))

theorem findOneAndUpdate_none {f : Filter} {set : Doc} {store : List Doc}
    (h : ∀ d ∈ store, matchesD d f = false) :
    findOneAndUpdate f set store = (none, store) := by
  induction store with
  | nil => rfl
  | cons d rest ih =>
      rw [findOneAndUpdate_cons, if_neg (by simp [h d (List.mem_cons_self _ _)])]
      rw [ih (fun x hx => h x (List.mem_cons_of_mem _ hx))]

theorem updateOne_none {f : Filter} {set : Doc} {store : List Doc}
    (h : ∀ d ∈ store, matchesD d f = false) :
    updateOne f set store = (0, store) := by
  induction store with
  | nil => rfl
  | cons d rest ih =>
      rw [updateOne_cons, if_neg (by simp [h d (List.mem_cons_self _ _)])]
      rw [ih (fun x hx => h x (List.mem_cons_of_mem _ hx))]

theorem updateMany_snd (f : Filter) (set : Doc) (store : List Doc) :
    (updateMany f set store).2 =
      store.map (fun d => if matchesD d f then applySet set d else d) := by
  induction store with
  | nil => rfl
  | cons d rest ih =>
      rw [updateMany_cons]
      by_cases hm : matchesD d f
      · simp [hm, ih]
      · simp [hm, ih]

theorem updateMany_none {f : Filter} {set : Doc} {store : List Doc}
    (h : ∀ d ∈ store, matchesD d f = false) :
    updateMany f set store = (0, store) := by
  induction store with
  | nil => rfl
  | cons d rest ih =>
      rw [updateMany_cons, if_neg (by simp [h d (List.mem_cons_self _ _)])]
      rw [ih (fun x hx => h x (List.mem_cons_of_mem _ hx))]

theorem findOneAndUpdate_some {f : Filter} {set : Doc} {store : List Doc}
    {r : Doc} (h : (findOneAndUpdate f set store).1 = some r) :
    ∃ d ∈ store, matchesD d f = true ∧ r = applySet set d ∧
      r ∈ (findOneAndUpdate f set store).2 := by
  induction store with
  | nil => simp [findOneAndUpdate] at h
  | cons d rest ih =>
      by_cases hm : matchesD d f
      · rw [findOneAndUpdate_cons, if_pos (by simp [hm])] at h
        simp only [Option.some.injEq] at h
        rw [findOneAndUpdate_cons, if_pos (by simp [hm])]
        refine ⟨d, List.mem_cons_self _ _, hm, h.symm, ?_⟩
        rw [← h]
        exact List.mem_cons_self _ _
      · rw [findOneAndUpdate_cons, if_neg (by simp [hm])] at h
        simp only at h
        rcases ih h with ⟨d2, hd2, hm2, hr2, hmem2⟩
        rw [findOneAndUpdate_cons, if_neg (by simp [hm])]
        exact ⟨d2, List.mem_cons_of_mem _ hd2, hm2, hr2,
          List.mem_cons_of_mem _ hmem2⟩

/-- Pointwise shape of findOneAndUpdate: every document of the new store is
the old document at the same position, updated or not. -/
theorem findOneAndUpdate_forall2 (f : Filter) (set : Doc) (store : List Doc) :
    List.Forall₂ (fun d d2 => d2 = d ∨ d2 = applySet set d) store
      (findOneAndUpdate f set store).2 := by
  induction store with
  | nil => exact List.Forall₂.nil
  | cons d rest ih =>
      rw [findOneAndUpdate_cons]
      by_cases hm : matchesD d f
      · rw [if_pos (by simp [hm])]
        exact List.Forall₂.cons (Or.inr rfl)
          ((List.forall₂_same).mpr (fun x _ => Or.inl rfl))
      · rw [if_neg (by simp [hm])]
        exact List.Forall₂.cons (Or.inl rfl) ih

/-- Pointwise shape of updateOne, identical to findOneAndUpdate. -/
theorem updateOne_forall2 (f : Filter) (set : Doc) (store : List Doc) :
    List.Forall₂ (fun d d2 => d2 = d ∨ d2 = applySet set d) store
      (updateOne f set store).2 := by
  induction store with
  | nil => exact List.Forall₂.nil
  | cons d rest ih =>
      rw [updateOne_cons]
      by_cases hm : matchesD d f
      · rw [if_pos (by simp [hm])]
        exact List.Forall₂.cons (Or.inr rfl)
          ((List.forall₂_same).mpr (fun x _ => Or.inl rfl))
      · rw [if_neg (by simp [hm])]
        exact List.Forall₂.cons (Or.inl rfl) ih

/-- A document with a given id that is soft-deleted, or with a different id,
fails the id-targeted active filter used by the by-id routes. -/
theorem matches_idActive_false {d : Doc} {i : Nat}
    (h : lookupD d "_id" = some (JVal.oid i) → lookupD d "deleted_at" ≠ none) :
    matchesD d (addSoftDeleteFilter [("_id", Cond.eq (JVal.oid i))]) = false := by
  rw [matchesD_addSoftDeleteFilter]
  have hkeys : ∀ p ∈ ([("_id", Cond.eq (JVal.oid i))] : Filter),
      p.1 ≠ "deleted_at" := by
    intro p hp
    simp only [List.mem_singleton] at hp
    rw [hp]
    exact (by decide : ("_id" : String) ≠ "deleted_at")
  rw [eraseKey_of_not_key hkeys]
  by_cases hid : lookupD d "_id" = some (JVal.oid i)
  · have h2 := h hid
    rcases h3 : lookupD d "deleted_at" with _ | w
    · exact absurd h3 h2
    · simp [h3]
  · have h2 : matchesD d [("_id", Cond.eq (JVal.oid i))] = false := by
      simp only [matchesD, List.all_cons, List.all_nil, Bool.and_true]
      cases h4 : condHolds (Cond.eq (JVal.oid i)) (lookupD d "_id") with
      | false => rfl
      | true => exact absurd ((condHolds_eq_oid i _).mp h4) hid
    rw [h2]
    rfl

/-! ## Route-level helper lemmas -/

theorem lookupD_applySet_deleteMeta (d : Doc) (now : Int) (u : Option User) :
    lookupD (applySet (getDeleteMetadata now u) d) "deleted_at" =
      some (JVal.int now) := by
  show lookupD (jsInsert "deleted_by" (JVal.str (strOr (u.bind User.username) "system"))
      (jsInsert "deleted_at" (JVal.int now) d)) "deleted_at" = _
  rw [lookupD_jsInsert_ne _ _ (by decide)]
  exact lookupD_jsInsert_self _ _ _

theorem lookupD_applySet_deleteMeta_by (d : Doc) (now : Int) (u : Option User) :
    lookupD (applySet (getDeleteMetadata now u) d) "deleted_by" =
      some (JVal.str (strOr (u.bind User.username) "system")) :=
  lookupD_jsInsert_self _ _ _

theorem deleteDocumentsByFilter_eq (store : List Doc) (f : Filter)
    (u : Option User) (now : Int) :
    deleteDocumentsByFilter store f u now =
      (okDeletedResp
          (updateMany (addSoftDeleteFilter f) (getDeleteMetadata now u) store).1,
        (updateMany (addSoftDeleteFilter f) (getDeleteMetadata now u) store).2) := by
  rcases h : updateMany (addSoftDeleteFilter f) (getDeleteMetadata now u) store
    with ⟨n, s2⟩
  show (match updateMany (addSoftDeleteFilter f) (getDeleteMetadata now u) store with
    | (n, store2) => (({ status := 200, body := RBody.okDeleted n } : Response), store2)) = _
  rw [h]
  rfl

theorem deleteDocumentById_eq (store : List Doc) (i : Nat)
    (u : Option User) (now : Int) :
    deleteDocumentById store i u now =
      ((if (updateOne (addSoftDeleteFilter [("_id", Cond.eq (JVal.oid i))])
            (getDeleteMetadata now u) store).1 = 0 then notFoundResp
        else okDeletedResp
          (updateOne (addSoftDeleteFilter [("_id", Cond.eq (JVal.oid i))])
            (getDeleteMetadata now u) store).1),
        (updateOne (addSoftDeleteFilter [("_id", Cond.eq (JVal.oid i))])
          (getDeleteMetadata now u) store).2) := by
  rcases h : updateOne (addSoftDeleteFilter [("_id", Cond.eq (JVal.oid i))])
      (getDeleteMetadata now u) store with ⟨n, s2⟩
  show (match updateOne (addSoftDeleteFilter [("_id", Cond.eq (JVal.oid i))])
      (getDeleteMetadata now u) store with
    | (n, store2) =>
        if n = 0 then
          (({ status := 404, body := RBody.err "Document not found" } : Response), store2)
        else (({ status := 200, body := RBody.okDeleted n } : Response), store2)) = _
  rw [h]
  by_cases hn : n = 0
  · simp [hn, notFoundResp]
  · simp [hn, okDeletedResp]

theorem patchDocument_eq (store : List Doc) (i : Nat) (updates : Doc)
    (u : Option User) (now : Int) :
    patchDocument store i updates u now =
      ((match (findOneAndUpdate (addSoftDeleteFilter [("_id", Cond.eq (JVal.oid i))])
          (jsMerge updates (getUpdateMetadata now u)) store).1 with
        | none => notFoundResp
        | some doc => okDocResp doc),
        (findOneAndUpdate (addSoftDeleteFilter [("_id", Cond.eq (JVal.oid i))])
          (jsMerge updates (getUpdateMetadata now u)) store).2) := by
  rcases h : findOneAndUpdate (addSoftDeleteFilter [("_id", Cond.eq (JVal.oid i))])
      (jsMerge updates (getUpdateMetadata now u)) store with ⟨r, s2⟩
  show (match findOneAndUpdate (addSoftDeleteFilter [("_id", Cond.eq (JVal.oid i))])
      (jsMerge updates (getUpdateMetadata now u)) store with
    | (none, store2) =>
        (({ status := 404, body := RBody.err "Document not found" } : Response), store2)
    | (some doc, store2) =>
        (({ status := 200, body := RBody.okDoc doc } : Response), store2)) = _
  rw [h]
  cases r with
  | none => rfl
  | some doc => rfl

theorem getDocument_404 {store : List Doc} {i : Nat}
    (h : ∀ d ∈ store, lookupD d "_id" = some (JVal.oid i) →
      lookupD d "deleted_at" ≠ none) :
    getDocument store i = notFoundResp := by
  unfold getDocument
  rw [findOneDoc_none (fun d hd => matches_idActive_false (h d hd))]
  rfl

theorem patchDocument_404 {store : List Doc} {i : Nat} (updates : Doc)
    (u : Option User) (now : Int)
    (h : ∀ d ∈ store, lookupD d "_id" = some (JVal.oid i) →
      lookupD d "deleted_at" ≠ none) :
    patchDocument store i updates u now = (notFoundResp, store) := by
  rw [patchDocument_eq,
    findOneAndUpdate_none (fun d hd => matches_idActive_false (h d hd))]

theorem deleteDocumentById_404 {store : List Doc} {i : Nat}
    (u : Option User) (now : Int)
    (h : ∀ d ∈ store, lookupD d "_id" = some (JVal.oid i) →
      lookupD d "deleted_at" ≠ none) :
    deleteDocumentById store i u now = (notFoundResp, store) := by
  rw [deleteDocumentById_eq,
    updateOne_none (fun d hd => matches_idActive_false (h d hd))]
  rfl

/-! ## Claim theorems -/

/-- Claim C4: an Update-by-identifier whose target document is soft-deleted
(deleted_at present) or does not exist reports not found and leaves every
stored document unchanged; in particular it never mutates deleted_at or
deleted_by. -/
theorem C4_update_deleted_or_missing_not_found (store : List Doc) (i : Nat)
    (updates : Doc) (user : Option User) (now : Int)
    (h : ∀ d ∈ store, lookupD d "_id" = some (JVal.oid i) →
      lookupD d "deleted_at" ≠ none) :
    patchDocument store i updates user now = (notFoundResp, store) :=
  patchDocument_404 updates user now h

/-- Witness for C4 at a store holding one soft-deleted document. -/
theorem C4_witness :
    patchDocument [[("_id", JVal.oid 1), ("deleted_at", JVal.int 3)]] 1
        [("x", JVal.int 9)] none 50 =
      (notFoundResp, [[("_id", JVal.oid 1), ("deleted_at", JVal.int 3)]]) :=
  C4_update_deleted_or_missing_not_found _ 1 _ none 50 (by decide)

/-- Claim C5: soft-delete is idempotent in effect. The by-identifier path on
an already-deleted target reports not found with the store unchanged, and
re-invoking the filter path affects zero documents and reports the zero count
with a 200 response. -/
theorem C5_soft_delete_idempotent :
    (∀ (store : List Doc) (i : Nat) (user : Option User) (now : Int),
      (∀ d ∈ store, lookupD d "_id" = some (JVal.oid i) →
        lookupD d "deleted_at" ≠ none) →
      deleteDocumentById store i user now = (notFoundResp, store)) ∧
    (∀ (store : List Doc) (f : Filter) (u1 u2 : Option User) (t1 t2 : Int),
      deleteDocumentsByFilter (deleteDocumentsByFilter store f u1 t1).2 f u2 t2 =
        (okDeletedResp 0, (deleteDocumentsByFilter store f u1 t1).2)) := by
  constructor
  · intro store i user now h
    exact deleteDocumentById_404 user now h
  · intro store f u1 u2 t1 t2
    have hs1 : (deleteDocumentsByFilter store f u1 t1).2 =
        store.map (fun d => if matchesD d (addSoftDeleteFilter f) then
          applySet (getDeleteMetadata t1 u1) d else d) := by
      rw [deleteDocumentsByFilter_eq]
      exact updateMany_snd _ _ _
    have hall : ∀ d2 ∈ (deleteDocumentsByFilter store f u1 t1).2,
        matchesD d2 (addSoftDeleteFilter f) = false := by
      rw [hs1]
      intro d2 hd2
      rcases List.mem_map.mp hd2 with ⟨d, hd, rfl⟩
      by_cases hm : matchesD d (addSoftDeleteFilter f) = true
      · rw [if_pos hm, matchesD_addSoftDeleteFilter, lookupD_applySet_deleteMeta]
        simp
      · rw [if_neg hm]
        exact Bool.eq_false_iff.mpr hm
    rw [deleteDocumentsByFilter_eq _ f u2 t2, updateMany_none hall]

/-- Witness for C5: an already-deleted document is not found by the id path,
and a second filter delete on the same filter reports zero affected. -/
theorem C5_witness :
    (deleteDocumentById [[("_id", JVal.oid 1), ("deleted_at", JVal.int 3)]] 1
        none 50 =
      (notFoundResp, [[("_id", JVal.oid 1), ("deleted_at", JVal.int 3)]])) ∧
    (deleteDocumentsByFilter
        (deleteDocumentsByFilter [[("_id", JVal.oid 1), ("a", JVal.int 2)]]
          [("a", Cond.eq (JVal.int 2))] none 50).2
        [("a", Cond.eq (JVal.int 2))] none 60 =
      (okDeletedResp 0,
        (deleteDocumentsByFilter [[("_id", JVal.oid 1), ("a", JVal.int 2)]]
          [("a", Cond.eq (JVal.int 2))] none 50).2)) :=
  ⟨C5_soft_delete_idempotent.1 _ 1 none 50 (by decide),
    C5_soft_delete_idempotent.2 _ _ none none 50 60⟩

/-- Claim C6: for Get, Update and Soft-delete by identifier, the
client-visible response for a missing target equals the response for a target
that exists but is soft-deleted, so deletion state does not leak. -/
theorem C6_not_found_indistinguishable (s1 s2 : List Doc) (i : Nat)
    (updates : Doc) (u1 u2 : Option User) (t1 t2 : Int)
    (h1 : ∀ d ∈ s1, lookupD d "_id" ≠ some (JVal.oid i))
    (h2 : ∀ d ∈ s2, lookupD d "_id" = some (JVal.oid i) →
      lookupD d "deleted_at" ≠ none)
    (h3 : ∃ d ∈ s2, lookupD d "_id" = some (JVal.oid i)) :
    getDocument s1 i = getDocument s2 i ∧
    (patchDocument s1 i updates u1 t1).1 = (patchDocument s2 i updates u2 t2).1 ∧
    (deleteDocumentById s1 i u1 t1).1 = (deleteDocumentById s2 i u2 t2).1 := by
  have h1b : ∀ d ∈ s1, lookupD d "_id" = some (JVal.oid i) →
      lookupD d "deleted_at" ≠ none :=
    fun d hd hid => absurd hid (h1 d hd)
  refine ⟨?_, ?_, ?_⟩
  · rw [getDocument_404 h1b, getDocument_404 h2]
  · rw [patchDocument_404 updates u1 t1 h1b, patchDocument_404 updates u2 t2 h2]
  · rw [deleteDocumentById_404 u1 t1 h1b, deleteDocumentById_404 u2 t2 h2]

/-- Witness for C6: the empty store against a store holding the id 1 document
soft-deleted. -/
theorem C6_witness :
    getDocument [] 1 = getDocument [[("_id", JVal.oid 1), ("deleted_at", JVal.int 3)]] 1 ∧
    (patchDocument [] 1 [("x", JVal.int 9)] none 50).1 =
      (patchDocument [[("_id", JVal.oid 1), ("deleted_at", JVal.int 3)]] 1
        [("x", JVal.int 9)] none 60).1 ∧
    (deleteDocumentById [] 1 none 50).1 =
      (deleteDocumentById [[("_id", JVal.oid 1), ("deleted_at", JVal.int 3)]] 1
        none 60).1 :=
  C6_not_found_indistinguishable [] [[("_id", JVal.oid 1), ("deleted_at", JVal.int 3)]]
    1 [("x", JVal.int 9)] none none 50 60 (by decide) (by decide)
    ⟨[("_id", JVal.oid 1), ("deleted_at", JVal.int 3)], by decide, by decide⟩

/-- Follows the spec words for claim C1: the predicate `P AND deleted_at
absent`, as a semantic condition on a document, for comparison with the
filter the code builds. -/
def specActiveAnd (P : Filter) (d : Doc) : Prop :=
  matchesD d P = true ∧ lookupD d "deleted_at" = none

/-- Claim C1 counterexample: for the caller predicate requiring
`deleted_at = 7`, the combined filter built by addSoftDeleteFilter matches a
document without deleted_at, while `P AND deleted_at absent` rejects every
document; the claimed equivalence for predicates already constraining
deleted_at fails, because the added clause replaces the caller clause. -/
theorem C1_counterexample :
    matchesD [("x", JVal.int 1)]
        (addSoftDeleteFilter [("deleted_at", Cond.eq (JVal.int 7))]) = true ∧
    ¬ specActiveAnd [("deleted_at", Cond.eq (JVal.int 7))] [("x", JVal.int 1)] :=
  ⟨by decide, fun h => absurd h.1 (by decide)⟩

/-- Claim C1 (amended): for every caller predicate P that does not constrain
deleted_at, the filter built by addSoftDeleteFilter is logically equivalent
to `P AND deleted_at absent`; in general it is equivalent to `(P minus its
deleted_at clause) AND deleted_at absent`, the added clause overriding any
caller clause on deleted_at. The input predicate is not mutated: the
function builds a new object (inherent in the pure embedding). -/
theorem C1_withActiveOnly_equiv :
    (∀ (P : Filter) (d : Doc), (∀ p ∈ P, p.1 ≠ "deleted_at") →
      (matchesD d (addSoftDeleteFilter P) = true ↔ specActiveAnd P d)) ∧
    (∀ (P : Filter) (d : Doc),
      (matchesD d (addSoftDeleteFilter P) = true ↔
        matchesD d (eraseKey "deleted_at" P) = true ∧
          lookupD d "deleted_at" = none)) := by
  have hgen : ∀ (P : Filter) (d : Doc),
      matchesD d (addSoftDeleteFilter P) = true ↔
        matchesD d (eraseKey "deleted_at" P) = true ∧
          lookupD d "deleted_at" = none := by
    intro P d
    rw [matchesD_addSoftDeleteFilter, Bool.and_eq_true]
    constructor
    · rintro ⟨hA, hB⟩
      exact ⟨hA, Option.isNone_iff_eq_none.mp hB⟩
    · rintro ⟨hA, hB⟩
      refine ⟨hA, ?_⟩
      rw [hB]
      rfl
  constructor
  · intro P d hk
    rw [hgen P d, eraseKey_of_not_key hk]
    exact Iff.rfl
  · exact hgen

/-- Witness for C1 at a predicate free of deleted_at and a matching
document. -/
theorem C1_witness :
    matchesD [("status", JVal.str "active")]
        (addSoftDeleteFilter [("status", Cond.eq (JVal.str "active"))]) = true ↔
      specActiveAnd [("status", Cond.eq (JVal.str "active"))]
        [("status", JVal.str "active")] :=
  C1_withActiveOnly_equiv.1 _ _ (by decide)

theorem postDocument_snd (store : List Doc) (body : Doc) (user : Option User)
    (now : Int) (newId : Nat) :
    (postDocument store body user now newId).2 =
      (insertOne newId (jsMerge body (getCreateMetadata now user)) store).2 := by
  rcases h : insertOne newId (jsMerge body (getCreateMetadata now user)) store
    with ⟨v, s2⟩
  show (match insertOne newId (jsMerge body (getCreateMetadata now user)) store with
    | (insertedId, store2) =>
        (({ status := 201, body := RBody.okInserted insertedId } : Response),
          store2)).2 = _
  rw [h]

theorem insertOne_snd_none {d : Doc} (newId : Nat) (store : List Doc)
    (h : lookupD d "_id" = none) :
    (insertOne newId d store).2 = store ++ [jsInsert "_id" (JVal.oid newId) d] := by
  unfold insertOne
  rw [h]

theorem insertOne_snd_some {d : Doc} {v : JVal} (newId : Nat) (store : List Doc)
    (h : lookupD d "_id" = some v) :
    (insertOne newId d store).2 = store ++ [d] := by
  unfold insertOne
  rw [h]

theorem lookupD_createMeta_at (body : Doc) (now : Int) (user : Option User) :
    lookupD (jsMerge body (getCreateMetadata now user)) "created_at" =
      some (JVal.int now) := by
  show lookupD (jsInsert "created_by"
      (JVal.str (strOr (user.bind User.username) "system"))
      (jsInsert "created_at" (JVal.int now) body)) "created_at" = _
  rw [lookupD_jsInsert_ne _ _ (by decide)]
  exact lookupD_jsInsert_self _ _ _

theorem lookupD_createMeta_by (body : Doc) (now : Int) (user : Option User) :
    lookupD (jsMerge body (getCreateMetadata now user)) "created_by" =
      some (JVal.str (strOr (user.bind User.username) "system")) :=
  lookupD_jsInsert_self _ _ _

/-- Claim C2 counterexample: the insert route stores a caller body supplying
the reserved field deleted_at unchanged (the document is born soft-deleted);
creation metadata only overrides created_at and created_by, so the claim that
the policy wins on every reserved-field collision fails. -/
theorem C2_counterexample :
    ((postDocument [] [("deleted_at", JVal.int 5)]
        (some { username := some "alice", email := none }) 100 1).2).map
      (fun d => lookupD d "deleted_at") = [some (JVal.int 5)] := by decide

/-- Claim C2 (amended): every operation merges the metadata of that operation
last, so the policy values win on collision with caller fields for the fields
the operation stamps: inserts store created_at and created_by from the
policy whatever the body says, a successful update returns a stored document
whose updated_at and updated_by come from the policy whatever the caller
updates say, and every document rewritten by the filter soft-delete carries
the policy deleted_at and deleted_by. Reserved fields of other operations
(for example deleted_at on an insert) are not protected. -/
theorem C2_metadata_policy_wins :
    (∀ (store : List Doc) (body : Doc) (user : Option User) (now : Int)
        (newId : Nat),
      ∃ dNew, (postDocument store body user now newId).2 = store ++ [dNew] ∧
        lookupD dNew "created_at" = some (JVal.int now) ∧
        lookupD dNew "created_by" =
          some (JVal.str (strOr (user.bind User.username) "system"))) ∧
    (∀ (store : List Doc) (i : Nat) (updates : Doc) (user : Option User)
        (now : Int) (doc : Doc) (store2 : List Doc),
      patchDocument store i updates user now = (okDocResp doc, store2) →
        lookupD doc "updated_at" = some (JVal.int now) ∧
        lookupD doc "updated_by" =
          some (JVal.str (strOr (user.bind User.username) "system")) ∧
        doc ∈ store2) ∧
    (∀ (store : List Doc) (f : Filter) (user : Option User) (now : Int),
      ∀ d2 ∈ (deleteDocumentsByFilter store f user now).2,
        d2 ∈ store ∨
          (lookupD d2 "deleted_at" = some (JVal.int now) ∧
            lookupD d2 "deleted_by" =
              some (JVal.str (strOr (user.bind User.username) "system")))) := by
  refine ⟨?_, ?_, ?_⟩
  · intro store body user now newId
    rcases hl : lookupD (jsMerge body (getCreateMetadata now user)) "_id" with _ | v
    · refine ⟨jsInsert "_id" (JVal.oid newId) (jsMerge body (getCreateMetadata now user)),
        ?_, ?_, ?_⟩
      · rw [postDocument_snd, insertOne_snd_none _ _ hl]
      · rw [lookupD_jsInsert_ne _ _ (by decide)]
        exact lookupD_createMeta_at body now user
      · rw [lookupD_jsInsert_ne _ _ (by decide)]
        exact lookupD_createMeta_by body now user
    · refine ⟨jsMerge body (getCreateMetadata now user), ?_, ?_, ?_⟩
      · rw [postDocument_snd, insertOne_snd_some _ _ hl]
      · exact lookupD_createMeta_at body now user
      · exact lookupD_createMeta_by body now user
  · intro store i updates user now doc store2 heq
    rw [patchDocument_eq] at heq
    rcases h1 : (findOneAndUpdate (addSoftDeleteFilter [("_id", Cond.eq (JVal.oid i))])
        (jsMerge updates (getUpdateMetadata now user)) store).1 with _ | r
    · rw [h1] at heq
      have h2 := congrArg Response.status (congrArg Prod.fst heq)
      simp [notFoundResp, okDocResp] at h2
    · rw [h1] at heq
      have hr : r = doc := by
        have h2 := congrArg Response.body (congrArg Prod.fst heq)
        injection h2
      have hs : (findOneAndUpdate (addSoftDeleteFilter [("_id", Cond.eq (JVal.oid i))])
          (jsMerge updates (getUpdateMetadata now user)) store).2 = store2 :=
        congrArg Prod.snd heq
      rcases findOneAndUpdate_some h1 with ⟨d, _, _, hrd, hmem⟩
      have hform : doc = applySet (jsMerge updates (getUpdateMetadata now user)) d := by
        rw [← hr]
        exact hrd
      have hdecomp : applySet (jsMerge updates (getUpdateMetadata now user)) d =
          jsInsert "updated_by" (JVal.str (strOr (user.bind User.username) "system"))
            (jsInsert "updated_at" (JVal.int now)
              (applySet (eraseKey "updated_by" (eraseKey "updated_at" updates)) d)) := by
        show applySet (jsMerge updates
          [("updated_at", JVal.int now),
            ("updated_by", JVal.str (strOr (user.bind User.username) "system"))]) d = _
        exact applySet_jsMerge_two updates _ _ d (by decide)
      refine ⟨?_, ?_, ?_⟩
      · rw [hform, hdecomp, lookupD_jsInsert_ne _ _ (by decide)]
        exact lookupD_jsInsert_self _ _ _
      · rw [hform, hdecomp]
        exact lookupD_jsInsert_self _ _ _
      · rw [← hs, ← hr]
        exact hmem
  · intro store f user now d2 hd2
    rw [deleteDocumentsByFilter_eq, updateMany_snd] at hd2
    rcases List.mem_map.mp hd2 with ⟨d, hd, rfl⟩
    by_cases hm : matchesD d (addSoftDeleteFilter f) = true
    · right
      rw [if_pos hm]
      exact ⟨lookupD_applySet_deleteMeta _ _ _, lookupD_applySet_deleteMeta_by _ _ _⟩
    · left
      rw [if_neg hm]
      exact hd

/-- Witness for C2: a concrete insert, a concrete successful update, and a
concrete filter soft-delete. -/
theorem C2_witness :
    (∃ dNew, (postDocument [] [("name", JVal.str "Widget")]
        (some { username := some "alice", email := none }) 100 1).2 = [] ++ [dNew] ∧
      lookupD dNew "created_at" = some (JVal.int 100) ∧
      lookupD dNew "created_by" = some (JVal.str "alice")) ∧
    (lookupD [("_id", JVal.oid 1), ("updated_at", JVal.int 50),
        ("updated_by", JVal.str "system")] "updated_at" = some (JVal.int 50) ∧
      lookupD [("_id", JVal.oid 1), ("updated_at", JVal.int 50),
        ("updated_by", JVal.str "system")] "updated_by" =
          some (JVal.str "system") ∧
      [("_id", JVal.oid 1), ("updated_at", JVal.int 50),
        ("updated_by", JVal.str "system")] ∈
        [[("_id", JVal.oid 1), ("updated_at", JVal.int 50),
          ("updated_by", JVal.str "system")]]) ∧
    (∀ d2 ∈ (deleteDocumentsByFilter [[("_id", JVal.oid 1)]] [] none 9).2,
      d2 ∈ [[("_id", JVal.oid 1)]] ∨
        (lookupD d2 "deleted_at" = some (JVal.int 9) ∧
          lookupD d2 "deleted_by" = some (JVal.str "system"))) :=
  ⟨C2_metadata_policy_wins.1 [] [("name", JVal.str "Widget")]
      (some { username := some "alice", email := none }) 100 1,
    C2_metadata_policy_wins.2.1 [[("_id", JVal.oid 1)]] 1 [] none 50
      [("_id", JVal.oid 1), ("updated_at", JVal.int 50),
        ("updated_by", JVal.str "system")]
      [[("_id", JVal.oid 1), ("updated_at", JVal.int 50),
        ("updated_by", JVal.str "system")]] (by decide),
    C2_metadata_policy_wins.2.2 [[("_id", JVal.oid 1)]] [] none 9⟩

/-- Claim C7 counterexample: a PATCH whose body itself names created_at
rewrites the stored created_at (0 becomes 999): update metadata only
overrides updated_at and updated_by, so creation fields are not protected
against caller-supplied update fields. -/
theorem C7_counterexample :
    lookupD [("_id", JVal.oid 1), ("created_at", JVal.int 0)] "created_at" =
        some (JVal.int 0) ∧
    ((patchDocument [[("_id", JVal.oid 1), ("created_at", JVal.int 0)]] 1
        [("created_at", JVal.int 999)] none 50).2).map
      (fun d => lookupD d "created_at") = [some (JVal.int 999)] := by decide

/-- Claim C7 (amended): the gateway itself never rewrites created_at or
created_by after creation: soft-delete (by id and by filter) always preserves
both fields of every stored document, and an update preserves them whenever
the caller-supplied update body does not itself name them. A caller update
field named created_at or created_by does overwrite the stored value. -/
theorem C7_created_set_once :
    (∀ (store : List Doc) (i : Nat) (updates : Doc) (user : Option User)
        (now : Int),
      (∀ p ∈ updates, p.1 ≠ "created_at" ∧ p.1 ≠ "created_by") →
      List.Forall₂ (fun d d2 => lookupD d2 "created_at" = lookupD d "created_at" ∧
        lookupD d2 "created_by" = lookupD d "created_by") store
        (patchDocument store i updates user now).2) ∧
    (∀ (store : List Doc) (i : Nat) (user : Option User) (now : Int),
      List.Forall₂ (fun d d2 => lookupD d2 "created_at" = lookupD d "created_at" ∧
        lookupD d2 "created_by" = lookupD d "created_by") store
        (deleteDocumentById store i user now).2) ∧
    (∀ (store : List Doc) (f : Filter) (user : Option User) (now : Int),
      List.Forall₂ (fun d d2 => lookupD d2 "created_at" = lookupD d "created_at" ∧
        lookupD d2 "created_by" = lookupD d "created_by") store
        (deleteDocumentsByFilter store f user now).2) := by
  have hdelkeys : ∀ (now : Int) (user : Option User),
      ∀ p ∈ getDeleteMetadata now user, p.1 ≠ "created_at" ∧ p.1 ≠ "created_by" := by
    intro now user p hp
    simp only [getDeleteMetadata, List.mem_cons, List.not_mem_nil, or_false] at hp
    rcases hp with rfl | rfl
    · exact ⟨(by decide : ("deleted_at" : String) ≠ "created_at"),
        (by decide : ("deleted_at" : String) ≠ "created_by")⟩
    · exact ⟨(by decide : ("deleted_by" : String) ≠ "created_at"),
        (by decide : ("deleted_by" : String) ≠ "created_by")⟩
  refine ⟨?_, ?_, ?_⟩
  · intro store i updates user now hupd
    have hkeys : ∀ p ∈ jsMerge updates (getUpdateMetadata now user),
        p.1 ≠ "created_at" ∧ p.1 ≠ "created_by" := by
      intro p hp
      rcases mem_jsMerge hp with hp2 | hp2
      · exact hupd p hp2
      · simp only [getUpdateMetadata, List.mem_cons, List.not_mem_nil,
          or_false] at hp2
        rcases hp2 with rfl | rfl
        · exact ⟨(by decide : ("updated_at" : String) ≠ "created_at"),
            (by decide : ("updated_at" : String) ≠ "created_by")⟩
        · exact ⟨(by decide : ("updated_by" : String) ≠ "created_at"),
            (by decide : ("updated_by" : String) ≠ "created_by")⟩
    rw [patchDocument_eq]
    refine List.Forall₂.imp ?_ (findOneAndUpdate_forall2 _ _ store)
    intro a b hab
    rcases hab with rfl | rfl
    · exact ⟨rfl, rfl⟩
    · exact ⟨lookupD_applySet_not_key (fun p hp => (hkeys p hp).1) a,
        lookupD_applySet_not_key (fun p hp => (hkeys p hp).2) a⟩
  · intro store i user now
    rw [deleteDocumentById_eq]
    refine List.Forall₂.imp ?_ (updateOne_forall2 _ _ store)
    intro a b hab
    rcases hab with rfl | rfl
    · exact ⟨rfl, rfl⟩
    · exact ⟨lookupD_applySet_not_key (fun p hp => (hdelkeys now user p hp).1) a,
        lookupD_applySet_not_key (fun p hp => (hdelkeys now user p hp).2) a⟩
  · intro store f user now
    rw [deleteDocumentsByFilter_eq, updateMany_snd]
    rw [List.forall₂_map_right_iff]
    refine (List.forall₂_same).mpr ?_
    intro x _
    by_cases hm : matchesD x (addSoftDeleteFilter f) = true
    · rw [if_pos hm]
      exact ⟨lookupD_applySet_not_key (fun p hp => (hdelkeys now user p hp).1) x,
        lookupD_applySet_not_key (fun p hp => (hdelkeys now user p hp).2) x⟩
    · rw [if_neg hm]
      exact ⟨rfl, rfl⟩

/-- Witness for C7: a PATCH whose body does not name the creation fields
preserves them on the stored document. -/
theorem C7_witness :
    List.Forall₂ (fun d d2 => lookupD d2 "created_at" = lookupD d "created_at" ∧
        lookupD d2 "created_by" = lookupD d "created_by")
      [[("_id", JVal.oid 1), ("created_at", JVal.int 0)]]
      ((patchDocument [[("_id", JVal.oid 1), ("created_at", JVal.int 0)]] 1
        [("name", JVal.str "W2")] none 50).2) :=
  C7_created_set_once.1 _ 1 _ none 50 (by decide)

/-- The count the find routes report (the count field of an okFound body). -/
def foundCount (r : Response) : Nat :=
  match r.body with
  | .okFound n _ => n
  | _ => 0

/-- A store of 501 active documents, for exercising the limit cap. -/
def bigStore : List Doc :=
  (List.range 501).map (fun i => [("_id", JVal.oid i)])

set_option maxRecDepth 4000 in
/-- Claim C8 counterexample: a caller limit of -501 passes through
`Math.min(Number(limit) || 50, 500)` un-clamped (min does not bound negative
values from below), and the driver treats a negative limit as its absolute
value in a single batch, so 501 documents come back: the result size is not
bounded by 500 for every caller-supplied limit. -/
theorem C8_counterexample :
    500 < foundCount (findDocuments bigStore [] (JsInput.num (-501))
      JsInput.missing) := by decide

/-- Claim C8 (amended): for a missing, non-numeric, zero, or non-negative
numeric caller limit, the effective limit of the document find path is capped
so at most 500 documents return, and the actions find path is capped at
1000; a negative numeric limit escapes the cap. -/
theorem C8_limit_capped :
    (∀ (store : List Doc) (f : Filter) (li sk : JsInput),
      (li = JsInput.missing ∨ li = JsInput.nonNumeric ∨
        ∃ n : Int, li = JsInput.num n ∧ 0 ≤ n) →
      ∃ docs : List Doc, (findDocuments store f li sk).body =
          RBody.okFound docs.length docs ∧ docs.length ≤ 500) ∧
    (∀ (store : List Doc) (f : Filter) (li sk : JsInput),
      (li = JsInput.missing ∨ li = JsInput.nonNumeric ∨
        ∃ n : Int, li = JsInput.num n ∧ 0 ≤ n) →
      ∃ docs : List Doc, (findActions store f li sk).body =
          RBody.okFound docs.length docs ∧ docs.length ≤ 1000) := by
  have hlen : ∀ (l : Int) (c : Nat) (docs : List Doc), 0 < l → l ≤ (c : Int) →
      (applyLimit l docs).length ≤ c := by
    intro l c docs hpos hle
    unfold applyLimit
    rw [if_neg (by omega)]
    rw [List.length_take]
    have : l.natAbs ≤ c := by omega
    omega
  have hfindbound : ∀ li : JsInput,
      (li = JsInput.missing ∨ li = JsInput.nonNumeric ∨
        ∃ n : Int, li = JsInput.num n ∧ 0 ≤ n) →
      0 < effLimitFind li ∧ effLimitFind li ≤ 500 := by
    intro li h
    rcases h with rfl | rfl | ⟨n, rfl, hn⟩
    · constructor <;> decide
    · constructor <;> decide
    · simp only [effLimitFind, destructure, toNumber, numOr]
      by_cases hz : n = 0
      · rw [if_pos hz]
        constructor <;> decide
      · rw [if_neg hz]
        constructor <;> omega
  have hactbound : ∀ li : JsInput,
      (li = JsInput.missing ∨ li = JsInput.nonNumeric ∨
        ∃ n : Int, li = JsInput.num n ∧ 0 ≤ n) →
      0 < effLimitActions li ∧ effLimitActions li ≤ 1000 := by
    intro li h
    rcases h with rfl | rfl | ⟨n, rfl, hn⟩
    · constructor <;> decide
    · constructor <;> decide
    · simp only [effLimitActions, destructure, toNumber, numOr]
      by_cases hz : n = 0
      · rw [if_pos hz]
        constructor <;> decide
      · rw [if_neg hz]
        constructor <;> omega
  constructor
  · intro store f li sk h
    rcases hfindbound li h with ⟨hpos, hle⟩
    exact ⟨applyLimit (effLimitFind li) (applySkip (effSkipFind sk)
        (store.filter (fun d => matchesD d (addSoftDeleteFilter f)))),
      rfl, hlen _ _ _ hpos (by exact_mod_cast hle)⟩
  · intro store f li sk h
    rcases hactbound li h with ⟨hpos, hle⟩
    exact ⟨applyLimit (effLimitActions li) (applySkip (effSkipFind sk)
        (store.filter (fun d => matchesD d f))),
      rfl, hlen _ _ _ hpos (by exact_mod_cast hle)⟩

/-- Witness for C8 at the default (missing) limit on the empty store. -/
theorem C8_witness :
    (∃ docs : List Doc, (findDocuments [] [] JsInput.missing JsInput.missing).body =
        RBody.okFound docs.length docs ∧ docs.length ≤ 500) ∧
    (∃ docs : List Doc, (findActions [] [] JsInput.missing JsInput.missing).body =
        RBody.okFound docs.length docs ∧ docs.length ≤ 1000) :=
  ⟨C8_limit_capped.1 [] [] JsInput.missing JsInput.missing (Or.inl rfl),
    C8_limit_capped.2 [] [] JsInput.missing JsInput.missing (Or.inl rfl)⟩

/-- Claim C10: on the document find path, a caller limit of 0 or a
non-numeric limit coerces to the default 50 (neither unlimited nor zero
results), and a non-numeric or missing skip coerces to 0: the route behaves
exactly as with an explicit limit of 50. -/
theorem C10_find_limit_skip_coercions :
    effLimitFind (JsInput.num 0) = 50 ∧
    effLimitFind JsInput.nonNumeric = 50 ∧
    effLimitFind JsInput.missing = 50 ∧
    effSkipFind JsInput.nonNumeric = 0 ∧
    effSkipFind JsInput.missing = 0 ∧
    ∀ (store : List Doc) (f : Filter) (sk : JsInput),
      findDocuments store f (JsInput.num 0) sk =
        findDocuments store f (JsInput.num 50) sk ∧
      findDocuments store f JsInput.nonNumeric sk =
        findDocuments store f (JsInput.num 50) sk := by
  refine ⟨by decide, by decide, by decide, by decide, by decide, ?_⟩
  intro store f sk
  exact ⟨rfl, rfl⟩

/-- A concrete authenticated request, used by the audit witnesses. -/
def reqEx : Request :=
  { user := some { username := some "alice", email := some "a@example.com" }
    method := "POST"
    path := "/api/collections/items/documents"
    reqIp := some "127.0.0.1"
    userAgent := some "jest" }

/-- A concrete route-handler response, used by the audit witnesses. -/
def respEx : Response :=
  { status := 201, body := RBody.okInserted (JVal.oid 7) }

/-- Claim C3: every completed request on an audited route yields exactly one
audit record appended to the actions collection, assembled and persisted only
after the response reached the client (every insert event in the trace is
preceded by the response-sent event), with a non-negative duration and a
statusCode equal to the status actually sent. The hypothesis start ≤ finish
is clock monotonicity; the successful-write flag reflects that the claim
speaks about the record being persisted. -/
theorem C3_audit_exactly_once_after_send (req : Request) (resp : Response)
    (start finish : Int) (actions : List AuditRecord) (h : start ≤ finish) :
    ∃ rec : AuditRecord,
      (auditLog req resp start finish true actions).actions = actions ++ [rec] ∧
      0 ≤ rec.duration ∧
      rec.statusCode = resp.status ∧
      ∀ j r2, (auditLog req resp start finish true actions).events.get? j =
          some (AuditEv.auditInsert r2) →
        ∃ i2, i2 < j ∧
          (auditLog req resp start finish true actions).events.get? i2 =
            some (AuditEv.responseSent resp) := by
  refine ⟨buildAuditRecord req resp.status start finish, rfl, ?_, rfl, ?_⟩
  · show (0 : Int) ≤ finish - start
    omega
  · intro j r2 hj
    rcases j with _ | j
    · simp [auditLog] at hj
    · rcases j with _ | j
      · exact ⟨0, by omega, rfl⟩
      · simp [auditLog] at hj

/-- Witness for C3 at a concrete request, response and clock pair. -/
theorem C3_witness :
    ∃ rec : AuditRecord,
      (auditLog reqEx respEx 0 5 true []).actions = [] ++ [rec] ∧
      0 ≤ rec.duration ∧
      rec.statusCode = respEx.status ∧
      ∀ j r2, (auditLog reqEx respEx 0 5 true []).events.get? j =
          some (AuditEv.auditInsert r2) →
        ∃ i2, i2 < j ∧
          (auditLog reqEx respEx 0 5 true []).events.get? i2 =
            some (AuditEv.responseSent respEx) :=
  C3_audit_exactly_once_after_send reqEx respEx 0 5 [] (by decide)

/-- Claim C9: the audit middleware never alters the client-visible outcome:
the response equals what the route handler sent for every request whether
the audit write succeeds or fails, and a failed audit write leaves the
actions collection untouched, writes only a local console line, and never
re-raises (the middleware still returns the same outcome normally). -/
theorem C9_audit_transparent (req : Request) (resp : Response)
    (start finish : Int) (ok : Bool) (actions : List AuditRecord) :
    (auditLog req resp start finish ok actions).response = resp ∧
    (auditLog req resp start finish false actions).response = resp ∧
    (auditLog req resp start finish false actions).actions = actions ∧
    (auditLog req resp start finish false actions).errorLog =
      ["Audit log error"] :=
  ⟨rfl, rfl, rfl, rfl⟩

end ProjectV
